import Mathlib

/-!
Shallow embedding of the frame hand-off core of the `itsamecube` repository
(`src/appsink.rs` and `src/main.rs`): the producer's `new_sample` callback, the
shared frame buffer, the consumer's `copy_image`, and the bus/lifecycle
handling, together with proofs of the specified properties.
-/

namespace ItsAMeCube

/-! ### Frame dimensions (src/appsink.rs line 47 and the caps at lines 117-123) -/

def width : Nat := 176

def height : Nat := 144

def numPixels : Nat := width * height

/-- Length of `ImageRaw = [u8; 176 * 144 * 4]`. -/
def bufLen : Nat := width * height * 4

/-- A byte buffer; bytes are modelled as `Nat` (values of `u8`; no arithmetic is
performed on them, only copying, so no wraparound modelling is needed). -/
abbrev Buffer := List Nat

/-- The initial contents of the shared slot: `[0u8; 176 * 144 * 4]`
(src/appsink.rs line 79, `AppSinkImage::new`). -/
def initBuffer : Buffer := List.replicate bufLen 0

/-! ### The strided conversion loop (src/appsink.rs lines 173-177)

```rust
for (dest_chunk, src_chunk) in data.chunks_exact_mut(4).zip(samples.chunks_exact(3)) {
    dest_chunk[..3].copy_from_slice(src_chunk);
}
```

`chunks_exact_mut(4)` yields only the full 4-byte chunks of the destination,
`chunks_exact(3)` only the full 3-byte chunks of the source, and `zip` stops at
the shorter iterator; each step copies 3 source bytes over the first 3 bytes of
the destination chunk, leaving the 4th byte in place. -/

def stridedCopy (dest : Buffer) (src : List Nat) : Buffer :=
  match dest, src with
  | d0 :: d1 :: d2 :: d3 :: drest, s0 :: s1 :: s2 :: srest =>
      s0 :: s1 :: s2 :: d3 :: stridedCopy drest srest
  | d, _ => d

theorem stridedCopy_length (dest : Buffer) (src : List Nat) :
    (stridedCopy dest src).length = dest.length := by
  induction dest, src using stridedCopy.induct with
  | case1 d0 d1 d2 d3 drest s0 s1 s2 srest ih =>
      simp [stridedCopy, ih]
  | case2 d s h =>
      simp [stridedCopy]

theorem stridedCopy_eq_self (dest : Buffer) (src : List Nat)
    (h : dest.length < 4 ∨ src.length < 3) : stridedCopy dest src = dest := by
  match dest, src with
  | d0 :: d1 :: d2 :: d3 :: drest, s0 :: s1 :: s2 :: srest =>
      simp at h
      omega
  | [], _ => rfl
  | [_], _ => rfl
  | [_, _], _ => rfl
  | [_, _, _], _ => rfl
  | _ :: _ :: _ :: _ :: _, [] => rfl
  | _ :: _ :: _ :: _ :: _, [_] => rfl
  | _ :: _ :: _ :: _ :: _, [_, _] => rfl

/-- Per-byte characterisation of the strided copy: byte `4*i + k` of the result
is source byte `3*i + k` when `k` is one of the 3 colour positions and pixel `i`
is a full chunk of both destination and source; otherwise it keeps its prior
value. -/
theorem stridedCopy_pixel (dest : Buffer) (src : List Nat) (i k : Nat) (hk : k < 4) :
    (stridedCopy dest src)[4 * i + k]? =
      if k < 3 ∧ 4 * i + 4 ≤ dest.length ∧ 3 * i + 3 ≤ src.length then
        src[3 * i + k]?
      else
        dest[4 * i + k]? := by
  induction i generalizing dest src with
  | zero =>
      match dest, src with
      | d0 :: d1 :: d2 :: d3 :: drest, s0 :: s1 :: s2 :: srest =>
          interval_cases k <;> simp [stridedCopy]
      | [], _ =>
          simp [stridedCopy_eq_self ([] : Buffer) _ (by simp)]
      | [a], _ =>
          rw [stridedCopy_eq_self [a] _ (by simp)]
          simp
      | [a, b], _ =>
          rw [stridedCopy_eq_self [a, b] _ (by simp)]
          simp
      | [a, b, c], _ =>
          rw [stridedCopy_eq_self [a, b, c] _ (by simp)]
          simp
      | d0 :: d1 :: d2 :: d3 :: drest, [] =>
          rw [stridedCopy_eq_self _ ([] : List Nat) (by simp)]
          simp
      | d0 :: d1 :: d2 :: d3 :: drest, [x] =>
          rw [stridedCopy_eq_self _ [x] (by simp)]
          simp
      | d0 :: d1 :: d2 :: d3 :: drest, [x, y] =>
          rw [stridedCopy_eq_self _ [x, y] (by simp)]
          simp
  | succ i ih =>
      match dest, src with
      | d0 :: d1 :: d2 :: d3 :: drest, s0 :: s1 :: s2 :: srest =>
          have h4 : 4 * (i + 1) + k = (4 * i + k) + 4 := by ring
          have h3 : 3 * (i + 1) + k = (3 * i + k) + 3 := by ring
          rw [stridedCopy, h4, h3]
          have hL : (s0 :: s1 :: s2 :: d3 :: stridedCopy drest srest)[4 * i + k + 4]?
              = (stridedCopy drest srest)[4 * i + k]? := by
            simp [List.getElem?_cons_succ]
          rw [hL, ih drest srest]
          by_cases hc : k < 3 ∧ 4 * i + 4 ≤ drest.length ∧ 3 * i + 3 ≤ srest.length
          · rw [if_pos hc]
            have hc' : k < 3 ∧ 4 * (i + 1) + 4 ≤ (d0 :: d1 :: d2 :: d3 :: drest).length ∧
                3 * (i + 1) + 3 ≤ (s0 :: s1 :: s2 :: srest).length := by
              simp only [List.length_cons]
              omega
            rw [if_pos hc']
            simp [List.getElem?_cons_succ, h3]
          · rw [if_neg hc]
            have hc' : ¬(k < 3 ∧ 4 * (i + 1) + 4 ≤ (d0 :: d1 :: d2 :: d3 :: drest).length ∧
                3 * (i + 1) + 3 ≤ (s0 :: s1 :: s2 :: srest).length) := by
              simp only [List.length_cons]
              omega
            rw [if_neg hc']
            simp [List.getElem?_cons_succ, h4]
      | [], _ =>
          simp [stridedCopy_eq_self ([] : Buffer) _ (by simp)]
      | [a], _ =>
          rw [stridedCopy_eq_self [a] _ (by simp)]
          simp
      | [a, b], _ =>
          rw [stridedCopy_eq_self [a, b] _ (by simp)]
          simp
      | [a, b, c], _ =>
          rw [stridedCopy_eq_self [a, b, c] _ (by simp)]
          simp
      | d0 :: d1 :: d2 :: d3 :: drest, [] =>
          rw [stridedCopy_eq_self _ ([] : List Nat) (by simp)]
          simp
      | d0 :: d1 :: d2 :: d3 :: drest, [x] =>
          rw [stridedCopy_eq_self _ [x] (by simp)]
          simp
      | d0 :: d1 :: d2 :: d3 :: drest, [x, y] =>
          rw [stridedCopy_eq_self _ [x, y] (by simp)]
          simp

example : stridedCopy [1, 2, 3, 4, 5, 6, 7, 8] [9, 9, 9] = [9, 9, 9, 4, 5, 6, 7, 8] := by decide

example : stridedCopy [1, 2, 3, 4] [9, 9, 9, 8, 8, 8, 7] = [9, 9, 9, 4] := by decide

/-! ### The `new_sample` callback (src/appsink.rs lines 130-182)

The callback pulls a sample (`pull_sample`, error mapped to `FlowError::Eos`),
takes its buffer (`sample.buffer()`, `None` mapped to an `element_error` plus
`FlowError::Error`), maps the buffer readable (failure likewise), reinterprets
the mapped bytes via `byte_slice_cast`'s `as_slice_of::<u8>` (failure likewise),
and only then takes the write lock and runs the strided copy. -/

/-- A GStreamer buffer as the callback sees it: whether `map_readable` succeeds
(a property of the external memory region), and the payload bytes of the mapped
region. -/
structure RawBuffer where
  mapOk : Bool
  bytes : List Nat
deriving DecidableEq

/-- A pulled sample: `sample.buffer()` may be `None`. -/
structure Sample where
  buffer : Option RawBuffer
deriving DecidableEq

/-- `gst::FlowError` values the callback returns (src/appsink.rs lines 132, 140,
157, 170). -/
inductive FlowErr where
  | eos
  | error
deriving DecidableEq

/-- The three `element_error!` emissions of the callback, in source order:
"Failed to get buffer from appsink" (the spec's `DataAcquisitionFailure`),
"Failed to map buffer readable" (`BufferAccessFailure`), and
"Failed to interprete buffer as S16 PCM" (`FormatInterpretationFailure`). -/
inductive ElemError where
  | getBufferFailed
  | mapReadableFailed
  | interpretFailed
deriving DecidableEq

/-- Size in bytes of the element type `u8` that `as_slice_of` reinterprets to. -/
def u8Size : Nat := 1

/-- `byte_slice_cast`'s `as_slice_of::<u8>` on the mapped bytes (src/appsink.rs
line 163): the cast fails exactly when the byte length is not a multiple of the
element size; for `u8` the element size is 1, alignment is trivial, and the
bytes are returned unchanged. -/
def asSliceOfU8 (bytes : List Nat) : Option (List Nat) :=
  if bytes.length % u8Size = 0 then some bytes else none

/-- Everything observable about one invocation of the `new_sample` callback. -/
structure CbOutcome where
  /-- The callback's return value: `Ok(FlowSuccess::Ok)` or an `Err(FlowError)`. -/
  flow : Except FlowErr Unit
  /-- Contents of the shared frame buffer after the invocation. -/
  buf : Buffer
  /-- The `element_error!` emissions during the invocation. -/
  errors : List ElemError
  /-- How many times the invocation acquired the slot's write lock and ran the
  conversion loop (i.e. the number of frame-buffer mutations). -/
  writes : Nat

/-- The `new_sample` callback body (src/appsink.rs lines 130-182). `pulled` is
the result of `appsink.pull_sample()` (`none` = error), `buf` the current
contents of the shared `image_raw` slot. -/
def newSample (pulled : Option Sample) (buf : Buffer) : CbOutcome :=
  match pulled with
  | none => ⟨Except.error FlowErr.eos, buf, [], 0⟩
  | some sample =>
    match sample.buffer with
    | none => ⟨Except.error FlowErr.error, buf, [ElemError.getBufferFailed], 0⟩
    | some raw =>
      if raw.mapOk = false then
        ⟨Except.error FlowErr.error, buf, [ElemError.mapReadableFailed], 0⟩
      else
        match asSliceOfU8 raw.bytes with
        | none => ⟨Except.error FlowErr.error, buf, [ElemError.interpretFailed], 0⟩
        | some samples => ⟨Except.ok (), stridedCopy buf samples, [], 1⟩

/-- A pulled sample whose buffer is present and mappable, with payload `bytes`:
the normal case. -/
def okSample (bytes : List Nat) : Option Sample :=
  some ⟨some ⟨true, bytes⟩⟩

theorem newSample_okSample (bytes : List Nat) (buf : Buffer) :
    newSample (okSample bytes) buf =
      ⟨Except.ok (), stridedCopy buf bytes, [], 1⟩ := by
  simp [newSample, okSample, asSliceOfU8, u8Size, Nat.mod_one]

/-! ### Interleaving model of the shared slot

`image_raw` is an `Arc<RwLock<ImageRaw>>` (src/appsink.rs line 54). The
producer's only access is the conversion loop under `image_raw.write()`
(lines 173-177); the consumer's only access is `vide_image.to_vec()` under
`image_raw.read()` (src/main.rs lines 33-35). `RwLock` serialises these
critical sections, so an execution is an arbitrary interleaving of atomic
producer invocations and atomic consumer reads. -/

/-- One atomic critical section on the shared slot: a producer callback
invocation (with the sample it pulled) or a consumer read. -/
inductive Event where
  | sample (pulled : Option Sample)
  | tick

/-- Effect of one event on the shared buffer; a consumer read does not write. -/
def stepBuf (buf : Buffer) (e : Event) : Buffer :=
  match e with
  | Event.sample p => (newSample p buf).buf
  | Event.tick => buf

/-- Contents of the shared buffer after a sequence of events, starting from the
zeroed buffer installed by `AppSinkImage::new`. -/
def runBuf (es : List Event) : Buffer := es.foldl stepBuf initBuffer

/-- The buffers observed by each consumer read in an event sequence, starting
from buffer contents `buf`. -/
def observationsAux (buf : Buffer) : List Event → List Buffer
  | [] => []
  | Event.sample p :: es => observationsAux (newSample p buf).buf es
  | Event.tick :: es => buf :: observationsAux buf es

/-- The buffers observed by each consumer read in an event sequence, starting
from the zeroed initial buffer. -/
def observations (es : List Event) : List Buffer := observationsAux initBuffer es

/-- The byte slice the conversion loop runs over, when the callback invocation
reaches the loop (i.e. none of the error exits is taken). -/
def succPayload (pulled : Option Sample) : Option (List Nat) :=
  match pulled with
  | none => none
  | some sample =>
    match sample.buffer with
    | none => none
    | some raw => if raw.mapOk = false then none else asSliceOfU8 raw.bytes

theorem newSample_buf_eq (pulled : Option Sample) (buf : Buffer) :
    (newSample pulled buf).buf =
      match succPayload pulled with
      | some b => stridedCopy buf b
      | none => buf := by
  match pulled with
  | none => rfl
  | some sample =>
    match h : sample.buffer with
    | none => simp [newSample, succPayload, h]
    | some raw =>
      by_cases hm : raw.mapOk = false
      · simp [newSample, succPayload, h, hm]
      · simp only [newSample, succPayload, h, if_neg hm]
        match asSliceOfU8 raw.bytes with
        | none => rfl
        | some samples => rfl

/-- Whether a successful payload `b` writes pixel `i` of a full-length
destination buffer: the zip of `chunks_exact_mut(4)` and `chunks_exact(3)`
reaches index `i` exactly when both chunk `i` of the destination and chunk `i`
of the source are full. -/
def coversPixel (b : List Nat) (i : Nat) : Prop :=
  3 * i + 3 ≤ b.length ∧ i < numPixels

instance (b : List Nat) (i : Nat) : Decidable (coversPixel b i) := by
  unfold coversPixel
  infer_instance

/-- The payload of the last producer invocation in `es` that wrote pixel `i`,
with `acc` the result for the events already folded over. -/
def lastCoveringFrom (acc : Option (List Nat)) (i : Nat) : List Event → Option (List Nat)
  | [] => acc
  | Event.sample p :: es =>
      match succPayload p with
      | some b => lastCoveringFrom (if coversPixel b i then some b else acc) i es
      | none => lastCoveringFrom acc i es
  | Event.tick :: es => lastCoveringFrom acc i es

/-- The payload of the last producer invocation in `es` that wrote pixel `i`. -/
def lastCovering (es : List Event) (i : Nat) : Option (List Nat) :=
  lastCoveringFrom none i es

/-- The four bytes of pixel `i` of a buffer. -/
def pixelBytes (buf : Buffer) (i : Nat) : List (Option Nat) :=
  [buf[4 * i]?, buf[4 * i + 1]?, buf[4 * i + 2]?, buf[4 * i + 3]?]

/-- The four bytes pixel `i` holds after payload `b` wrote it in a buffer whose
padding byte was 0: the three source bytes of pixel `i` and the untouched 0. -/
def writtenPixel (b : List Nat) (i : Nat) : List (Option Nat) :=
  [b[3 * i]?, b[3 * i + 1]?, b[3 * i + 2]?, some 0]

/-- The buffer invariant: full length, and every pixel's 4th (padding) byte
is 0. -/
def GoodBuf (buf : Buffer) : Prop :=
  buf.length = bufLen ∧ ∀ i, i < numPixels → buf[4 * i + 3]? = some 0

theorem bufLen_eq : bufLen = 4 * numPixels := by decide

theorem goodBuf_init : GoodBuf initBuffer := by
  constructor
  · simp [initBuffer]
  · intro i hi
    have hlt : 4 * i + 3 < bufLen := by
      rw [bufLen_eq]; omega
    simp [initBuffer, List.getElem?_replicate, hlt]

theorem goodBuf_stridedCopy (buf : Buffer) (b : List Nat) (hb : GoodBuf buf) :
    GoodBuf (stridedCopy buf b) := by
  obtain ⟨hlen, hpad⟩ := hb
  constructor
  · rw [stridedCopy_length, hlen]
  · intro i hi
    rw [stridedCopy_pixel buf b i 3 (by omega)]
    simp only [show ¬(3 < 3 ∧ 4 * i + 4 ≤ buf.length ∧ 3 * i + 3 ≤ b.length) by omega,
      if_false]
    exact hpad i hi

theorem goodBuf_step (buf : Buffer) (e : Event) (hb : GoodBuf buf) :
    GoodBuf (stepBuf buf e) := by
  match e with
  | Event.tick => exact hb
  | Event.sample p =>
    show GoodBuf (newSample p buf).buf
    rw [newSample_buf_eq]
    match succPayload p with
    | none => exact hb
    | some b => exact goodBuf_stridedCopy buf b hb

theorem goodBuf_foldl (es : List Event) (buf : Buffer) (hb : GoodBuf buf) :
    GoodBuf (es.foldl stepBuf buf) := by
  induction es generalizing buf with
  | nil => exact hb
  | cons e es ih => exact ih (stepBuf buf e) (goodBuf_step buf e hb)

theorem goodBuf_runBuf (es : List Event) : GoodBuf (runBuf es) :=
  goodBuf_foldl es initBuffer goodBuf_init

/-- Effect of one producer invocation on one pixel of a well-formed buffer:
either the payload covers the pixel and all four of its bytes now come from that
single write (three source bytes plus the untouched 0), or the pixel is
byte-for-byte unchanged. -/
theorem pixelBytes_step (buf : Buffer) (hb : GoodBuf buf) (p : Option Sample)
    (i : Nat) (hi : i < numPixels) :
    pixelBytes ((newSample p buf).buf) i =
      match succPayload p with
      | some b => if coversPixel b i then writtenPixel b i else pixelBytes buf i
      | none => pixelBytes buf i := by
  obtain ⟨hlen, hpad⟩ := hb
  rw [newSample_buf_eq]
  match succPayload p with
  | none => rfl
  | some b =>
    show pixelBytes (stridedCopy buf b) i =
      if coversPixel b i then writtenPixel b i else pixelBytes buf i
    by_cases hc : coversPixel b i
    · rw [if_pos hc]
      obtain ⟨hcb, -⟩ := hc
      have hdest : 4 * i + 4 ≤ buf.length := by
        rw [hlen, bufLen_eq]; omega
      unfold pixelBytes writtenPixel
      rw [show 4 * i = 4 * i + 0 by omega, stridedCopy_pixel buf b i 0 (by omega),
        stridedCopy_pixel buf b i 1 (by omega), stridedCopy_pixel buf b i 2 (by omega),
        stridedCopy_pixel buf b i 3 (by omega)]
      rw [if_pos ⟨by omega, hdest, hcb⟩, if_pos ⟨by omega, hdest, hcb⟩,
        if_pos ⟨by omega, hdest, hcb⟩,
        if_neg (by omega : ¬(3 < 3 ∧ 4 * i + 4 ≤ buf.length ∧ 3 * i + 3 ≤ b.length))]
      rw [hpad i hi]
      simp
    · rw [if_neg hc]
      have hc' : ¬(3 * i + 3 ≤ b.length) := fun hle => hc ⟨hle, hi⟩
      unfold pixelBytes
      rw [show 4 * i = 4 * i + 0 by omega, stridedCopy_pixel buf b i 0 (by omega),
        stridedCopy_pixel buf b i 1 (by omega), stridedCopy_pixel buf b i 2 (by omega),
        stridedCopy_pixel buf b i 3 (by omega)]
      rw [if_neg (by omega), if_neg (by omega), if_neg (by omega), if_neg (by omega)]

/-- Provenance of a pixel across a whole run: after folding any event sequence
over a well-formed buffer, pixel `i` holds the bytes of the last payload that
covered it (or its accumulated prior value when none did). -/
theorem pixelBytes_foldl (es : List Event) (buf : Buffer) (acc : Option (List Nat))
    (i : Nat) (hb : GoodBuf buf) (hi : i < numPixels)
    (hacc : pixelBytes buf i =
      match acc with
      | some b => writtenPixel b i
      | none => [some 0, some 0, some 0, some 0]) :
    pixelBytes (es.foldl stepBuf buf) i =
      match lastCoveringFrom acc i es with
      | some b => writtenPixel b i
      | none => [some 0, some 0, some 0, some 0] := by
  induction es generalizing buf acc with
  | nil => exact hacc
  | cons e es ih =>
    match e with
    | Event.tick =>
      rw [List.foldl_cons]
      exact ih buf acc hb hacc
    | Event.sample p =>
      rw [List.foldl_cons]
      have hstep := pixelBytes_step buf hb p i hi
      have hb' : GoodBuf (stepBuf buf (Event.sample p)) :=
        goodBuf_step buf (Event.sample p) hb
      show pixelBytes ((es.foldl stepBuf (newSample p buf).buf)) i =
        match lastCoveringFrom acc i (Event.sample p :: es) with
        | some b => writtenPixel b i
        | none => [some 0, some 0, some 0, some 0]
      match hsp : succPayload p with
      | none =>
        rw [hsp] at hstep
        have hstep' : pixelBytes (newSample p buf).buf i = pixelBytes buf i := hstep
        have hlc : lastCoveringFrom acc i (Event.sample p :: es)
            = lastCoveringFrom acc i es := by
          rw [lastCoveringFrom, hsp]
        rw [hlc]
        exact ih ((newSample p buf).buf) acc hb' (hstep'.trans hacc)
      | some b =>
        rw [hsp] at hstep
        have hstep' : pixelBytes (newSample p buf).buf i =
            if coversPixel b i then writtenPixel b i else pixelBytes buf i := hstep
        have hlc : lastCoveringFrom acc i (Event.sample p :: es) =
            lastCoveringFrom (if coversPixel b i then some b else acc) i es := by
          rw [lastCoveringFrom, hsp]
        rw [hlc]
        by_cases hc : coversPixel b i
        · rw [if_pos hc] at hstep' ⊢
          exact ih ((newSample p buf).buf) (some b) hb' hstep'
        · rw [if_neg hc] at hstep' ⊢
          exact ih ((newSample p buf).buf) acc hb' (hstep'.trans hacc)

/-- Every observed buffer is the fold of some prefix of the event sequence:
a reader sees the state after a whole number of complete writes, never a torn
intermediate. -/
theorem mem_observationsAux (es : List Event) (buf : Buffer) (o : Buffer)
    (ho : o ∈ observationsAux buf es) :
    ∃ p t, p ++ t = es ∧ o = p.foldl stepBuf buf := by
  induction es generalizing buf with
  | nil => simp [observationsAux] at ho
  | cons e es ih =>
    match e with
    | Event.sample p =>
      have ho' : o ∈ observationsAux (newSample p buf).buf es := ho
      obtain ⟨q, t, hqt, rfl⟩ := ih ((newSample p buf).buf) ho'
      exact ⟨Event.sample p :: q, t, by rw [List.cons_append, hqt], by
        rw [List.foldl_cons]; rfl⟩
    | Event.tick =>
      have ho' : o = buf ∨ o ∈ observationsAux buf es := by
        simpa [observationsAux] using ho
      match ho' with
      | Or.inl h => exact ⟨[], Event.tick :: es, rfl, by simpa using h⟩
      | Or.inr h =>
        obtain ⟨q, t, hqt, rfl⟩ := ih buf h
        exact ⟨Event.tick :: q, t, by rw [List.cons_append, hqt], by
          rw [List.foldl_cons]; rfl⟩

/-- A non-`none` result of `lastCoveringFrom` names a payload that either was
the accumulator or arose from some sample event of the list. -/
theorem lastCoveringFrom_source (es : List Event) (acc : Option (List Nat))
    (i : Nat) (b : List Nat) (h : lastCoveringFrom acc i es = some b) :
    acc = some b ∨ ∃ p, Event.sample p ∈ es ∧ succPayload p = some b := by
  induction es generalizing acc with
  | nil => exact Or.inl h
  | cons e es ih =>
    match e with
    | Event.tick =>
      match ih acc h with
      | Or.inl h' => exact Or.inl h'
      | Or.inr ⟨p, hp, hsp⟩ => exact Or.inr ⟨p, List.mem_cons_of_mem _ hp, hsp⟩
    | Event.sample p =>
      match hsp : succPayload p with
      | none =>
        have h' : lastCoveringFrom acc i es = some b := by
          rw [lastCoveringFrom, hsp] at h
          exact h
        match ih acc h' with
        | Or.inl h'' => exact Or.inl h''
        | Or.inr ⟨q, hq, hsq⟩ => exact Or.inr ⟨q, List.mem_cons_of_mem _ hq, hsq⟩
      | some c =>
        have h' : lastCoveringFrom (if coversPixel c i then some c else acc) i es
            = some b := by
          rw [lastCoveringFrom, hsp] at h
          exact h
        match ih _ h' with
        | Or.inl h'' =>
          by_cases hc : coversPixel c i
          · rw [if_pos hc] at h''
            have hcb : c = b := by injection h''
            exact Or.inr ⟨p, List.mem_cons_self _ _, by rw [hsp, hcb]⟩
          · rw [if_neg hc] at h''
            exact Or.inl h''
        | Or.inr ⟨q, hq, hsq⟩ => exact Or.inr ⟨q, List.mem_cons_of_mem _ hq, hsq⟩

/-! ### The consumer's per-tick copy (src/main.rs lines 28-40)

```rust
fn copy_image(&self, appsinks: Res<Assets<AppSinkImage>>, mut images: ResMut<Assets<Image>>) {
    if let (Some(imagesink), Some(image)) = (appsinks.get(..), images.get_mut(..)) {
        if let Ok(vide_image) = imagesink.image_raw.read() {
            image.data = vide_image.to_vec();
        }
    } else { println!("Not loaded") }
    images.set_changed();
}
```
-/

/-- Observable result of one `State::copy_image` tick. -/
structure CopyOutcome where
  /-- The `data` field of the engine `Image` asset after the tick (`none` when
  the asset itself is missing). -/
  imageData : Option (List Nat)
  /-- Whether the tick took the `else` branch and printed "Not loaded". -/
  printedNotLoaded : Bool

/-- One invocation of `State::copy_image`. `appsink` is the loaded
`AppSinkImage` asset's current `image_raw` contents (`none` while the asset is
not yet loaded), `lockOk` whether `image_raw.read()` returns `Ok`, and
`imageData` the current `data` of the `Image` asset (`none` while missing). -/
def copy_image (appsink : Option Buffer) (lockOk : Bool)
    (imageData : Option (List Nat)) : CopyOutcome :=
  match appsink, imageData with
  | some raw, some old => if lockOk then ⟨some raw, false⟩ else ⟨some old, false⟩
  | _, old => ⟨old, true⟩

/-! ### Pipeline lifecycle and bus handling

`main_loop` (src/appsink.rs lines 189-221) reads the bus: on `Eos` it breaks
and sets the pipeline to `Null`; on `Error` it sets the pipeline to `Null` and
returns an `ErrorMessage` built from the message source's path string (or
"None"), the error text, and the optional debug string. `monitor_bus`
(src/main.rs lines 273-298) surfaces the identical `ErrorMessage` for display. -/

/-- The pipeline states the sources use: `gst::State::Playing` and
`gst::State::Null`. -/
inductive GstState where
  | playing
  | null
deriving DecidableEq

/-- The bus message views the sources match on (`MessageView::Eos`,
`MessageView::Error`, and everything else). -/
inductive BusMsg where
  | eos
  | errorMsg (src : Option String) (err : String) (debug : Option String)
  | other

/-- Embeds the `ErrorMessage` struct (src/appsink.rs lines 38-45), minus the
opaque `glib::Error` source. -/
structure ErrorMessage where
  src : String
  error : String
  debug : Option String
deriving DecidableEq

/-- Whole-system state: pipeline state, shared frame buffer, and the error
surfaced to the owning collaborator, if any. -/
structure SysState where
  gst : GstState
  buf : Buffer
  surfaced : Option ErrorMessage

/-- State right after `AppSinkImage::new` (src/appsink.rs lines 78-92): zeroed
buffer, pipeline set to `Playing`, no error surfaced. -/
def initSys : SysState := ⟨GstState.playing, initBuffer, none⟩

/-- Whole-system events: a producer callback invocation, a bus message being
handled, or a consumer read. -/
inductive SysEvent where
  | sample (pulled : Option Sample)
  | bus (m : BusMsg)
  | tick

/-- One whole-system step. Bus handling embeds `main_loop` (src/appsink.rs
lines 199-215): `Eos` sets the pipeline to `Null`; `Error` sets it to `Null`
and surfaces an `ErrorMessage` whose `src` is the message source's path string
or "None"; other messages are ignored. That sample callbacks are delivered
only while the pipeline is `Playing` is modelled from the spec: "`Null` is
terminal; no further callbacks fire after this state" (§4.4) — the dispatch
behaviour of the external pipeline is not part of the repository's sources. -/
def sysStep (st : SysState) (e : SysEvent) : SysState :=
  match e with
  | SysEvent.tick => st
  | SysEvent.sample p =>
      if st.gst = GstState.playing then
        { st with buf := (newSample p st.buf).buf }
      else st
  | SysEvent.bus m =>
      if st.gst = GstState.playing then
        match m with
        | BusMsg.eos => { st with gst := GstState.null }
        | BusMsg.errorMsg s t d =>
            { st with gst := GstState.null, surfaced := some ⟨s.getD "None", t, d⟩ }
        | BusMsg.other => st
      else st

/-- Whole-system run from a given state. -/
def sysRunFrom (st : SysState) (es : List SysEvent) : SysState := es.foldl sysStep st

/-- Whole-system run from the initial state. -/
def sysRun (es : List SysEvent) : SysState := sysRunFrom initSys es

theorem sysStep_null (st : SysState) (e : SysEvent) (h : st.gst = GstState.null) :
    sysStep st e = st := by
  have hne : ¬st.gst = GstState.playing := by rw [h]; intro hc; cases hc
  match e with
  | SysEvent.tick => rfl
  | SysEvent.sample p => simp [sysStep, hne]
  | SysEvent.bus m => simp [sysStep, hne]

theorem sysRunFrom_null (st : SysState) (es : List SysEvent)
    (h : st.gst = GstState.null) : sysRunFrom st es = st := by
  induction es with
  | nil => rfl
  | cons e es ih =>
    show sysRunFrom (sysStep st e) es = st
    rw [sysStep_null st e h, ih]

/-! ### Characterisation of a successful callback invocation -/

/-- Full characterisation of a callback invocation on a sample whose buffer is
present and mappable: it succeeds with no `element_error`, takes the write lock
once, keeps the buffer at full length, copies source bytes onto the colour
bytes of every pixel covered by both chunk iterators, and leaves every padding
byte and every uncovered pixel untouched. -/
theorem okSample_char (bytes : List Nat) (buf : Buffer) (hb : buf.length = bufLen) :
    (newSample (okSample bytes) buf).flow = Except.ok () ∧
    (newSample (okSample bytes) buf).errors = [] ∧
    (newSample (okSample bytes) buf).writes = 1 ∧
    (newSample (okSample bytes) buf).buf.length = bufLen ∧
    (∀ i k, k < 3 → i < min numPixels (bytes.length / 3) →
      (newSample (okSample bytes) buf).buf[4 * i + k]? = bytes[3 * i + k]?) ∧
    (∀ i, (newSample (okSample bytes) buf).buf[4 * i + 3]? = buf[4 * i + 3]?) ∧
    (∀ i k, k < 4 → min numPixels (bytes.length / 3) ≤ i →
      (newSample (okSample bytes) buf).buf[4 * i + k]? = buf[4 * i + k]?) := by
  rw [newSample_okSample]
  have hnp : numPixels = 25344 := by decide
  have hbl : bufLen = 101376 := by decide
  rw [hbl] at hb
  refine ⟨rfl, rfl, rfl, ?_, ?_, ?_, ?_⟩
  · show (stridedCopy buf bytes).length = bufLen
    rw [stridedCopy_length, hb, hbl]
  · intro i k hk hi
    rw [hnp] at hi
    show (stridedCopy buf bytes)[4 * i + k]? = bytes[3 * i + k]?
    rw [stridedCopy_pixel buf bytes i k (by omega), if_pos ⟨hk, by omega, by omega⟩]
  · intro i
    show (stridedCopy buf bytes)[4 * i + 3]? = buf[4 * i + 3]?
    rw [stridedCopy_pixel buf bytes i 3 (by omega), if_neg (by omega)]
  · intro i k hk hi
    rw [hnp] at hi
    show (stridedCopy buf bytes)[4 * i + k]? = buf[4 * i + k]?
    rw [stridedCopy_pixel buf bytes i k (by omega), if_neg (by omega)]

/-! ### The claims -/

/-- Claim C1: for every input sample whose payload is exactly
`width*height*3` bytes, the strided conversion writes, for each pixel `i`, the
3 source bytes of pixel `i` into the first 3 bytes of the `i`-th 4-byte
destination slot, leaves the 4th byte of every destination slot unchanged from
its prior value, and the resulting buffer is exactly `width*height*4` bytes. -/
theorem claim1_valid_sample (bytes : List Nat) (buf : Buffer)
    (hb : buf.length = width * height * 4) (hs : bytes.length = width * height * 3) :
    (newSample (okSample bytes) buf).buf.length = width * height * 4 ∧
    ∀ i, i < width * height →
      ((newSample (okSample bytes) buf).buf[4 * i]? = bytes[3 * i]? ∧
       (newSample (okSample bytes) buf).buf[4 * i + 1]? = bytes[3 * i + 1]? ∧
       (newSample (okSample bytes) buf).buf[4 * i + 2]? = bytes[3 * i + 2]?) ∧
      (newSample (okSample bytes) buf).buf[4 * i + 3]? = buf[4 * i + 3]? := by
  obtain ⟨-, -, -, hlen, hcol, hpad, -⟩ := okSample_char bytes buf hb
  have hwh : width * height = 25344 := by decide
  have hmin : min numPixels (bytes.length / 3) = 25344 := by
    rw [hs, hwh]
    decide
  refine ⟨hlen, fun i hi => ⟨⟨?_, ?_, ?_⟩, hpad i⟩⟩
  · have := hcol i 0 (by omega) (by rw [hmin]; omega)
    simpa using this
  · exact hcol i 1 (by omega) (by rw [hmin]; omega)
  · exact hcol i 2 (by omega) (by rw [hmin]; omega)

theorem claim1_witness :
    (initBuffer.length = width * height * 4 ∧
     (List.replicate (width * height * 3) 7).length = width * height * 3) ∧
    ((newSample (okSample (List.replicate (width * height * 3) 7)) initBuffer).buf.length
        = width * height * 4 ∧
     ∀ i, i < width * height →
       ((newSample (okSample (List.replicate (width * height * 3) 7)) initBuffer).buf[4 * i]?
            = (List.replicate (width * height * 3) 7)[3 * i]? ∧
        (newSample (okSample (List.replicate (width * height * 3) 7)) initBuffer).buf[4 * i + 1]?
            = (List.replicate (width * height * 3) 7)[3 * i + 1]? ∧
        (newSample (okSample (List.replicate (width * height * 3) 7)) initBuffer).buf[4 * i + 2]?
            = (List.replicate (width * height * 3) 7)[3 * i + 2]?) ∧
       (newSample (okSample (List.replicate (width * height * 3) 7)) initBuffer).buf[4 * i + 3]?
            = initBuffer[4 * i + 3]?) :=
  ⟨⟨by simp [initBuffer, bufLen], by simp⟩,
   claim1_valid_sample (List.replicate (width * height * 3) 7) initBuffer
     (by simp [initBuffer, bufLen]) (by simp)⟩

/-- Claim C2 as stated is false: a payload whose length is not a multiple of 3
is processed without any error. With payload `[9, 9, 9, 9]` (length 4) the
callback emits no `element_error`, returns `Ok`, and changes byte 0 of the
zeroed buffer to 9. -/
theorem claim2_counterexample :
    (4 : Nat) % 3 ≠ 0 ∧
    (newSample (okSample [9, 9, 9, 9]) initBuffer).errors = [] ∧
    (newSample (okSample [9, 9, 9, 9]) initBuffer).flow = Except.ok () ∧
    (newSample (okSample [9, 9, 9, 9]) initBuffer).buf[0]? = some 9 ∧
    initBuffer[0]? = some 0 := by
  have hb : initBuffer.length = bufLen := by simp [initBuffer]
  obtain ⟨-, -, -, -, hcol, -, -⟩ := okSample_char [9, 9, 9, 9] initBuffer hb
  refine ⟨by decide, rfl, rfl, ?_, ?_⟩
  · have := hcol 0 0 (by omega) (by decide)
    simpa using this
  · have h0 : (0 : Nat) < bufLen := by decide
    simp [initBuffer, List.getElem?_replicate, h0]

/-- Claim C2 (amended): the byte-reinterpretation step of the callback checks
divisibility by the element size 1, not 3, so a payload whose length is not a
multiple of 3 is NOT reported as a format error: the callback succeeds with no
`element_error`, copies the `floor(L/3)` full source pixels onto the covered
destination pixels' colour bytes, and silently ignores the trailing `L mod 3`
bytes, with every other byte of the buffer unchanged. -/
theorem claim2_amended (bytes : List Nat) (buf : Buffer)
    (hb : buf.length = width * height * 4) (h3 : bytes.length % 3 ≠ 0) :
    (newSample (okSample bytes) buf).flow = Except.ok () ∧
    (newSample (okSample bytes) buf).errors = [] ∧
    (∀ i k, k < 3 → i < min (width * height) (bytes.length / 3) →
      (newSample (okSample bytes) buf).buf[4 * i + k]? = bytes[3 * i + k]?) ∧
    (∀ i, (newSample (okSample bytes) buf).buf[4 * i + 3]? = buf[4 * i + 3]?) ∧
    (∀ i k, k < 4 → min (width * height) (bytes.length / 3) ≤ i →
      (newSample (okSample bytes) buf).buf[4 * i + k]? = buf[4 * i + k]?) := by
  obtain ⟨hflow, herr, -, -, hcol, hpad, hrest⟩ := okSample_char bytes buf hb
  exact ⟨hflow, herr, hcol, hpad, hrest⟩

theorem claim2_amended_witness :
    (initBuffer.length = width * height * 4 ∧ (4 : Nat) % 3 ≠ 0) ∧
    ((newSample (okSample [9, 9, 9, 9]) initBuffer).flow = Except.ok () ∧
     (newSample (okSample [9, 9, 9, 9]) initBuffer).errors = [] ∧
     (∀ i k, k < 3 → i < min (width * height) ((9 :: [9, 9, 9]).length / 3) →
       (newSample (okSample [9, 9, 9, 9]) initBuffer).buf[4 * i + k]?
          = [9, 9, 9, 9][3 * i + k]?) ∧
     (∀ i, (newSample (okSample [9, 9, 9, 9]) initBuffer).buf[4 * i + 3]?
          = initBuffer[4 * i + 3]?) ∧
     (∀ i k, k < 4 → min (width * height) ((9 :: [9, 9, 9]).length / 3) ≤ i →
       (newSample (okSample [9, 9, 9, 9]) initBuffer).buf[4 * i + k]?
          = initBuffer[4 * i + k]?)) :=
  ⟨⟨by simp [initBuffer, bufLen], by decide⟩,
   claim2_amended [9, 9, 9, 9] initBuffer (by simp [initBuffer, bufLen]) (by decide)⟩

/-- Claim C3 as stated is false: a delivered sample carrying an empty (0-byte)
payload is processed without any error — the buffer is present, maps fine, the
reinterpretation succeeds, and the conversion loop writes nothing. No
`getBufferFailed` (the spec's DataAcquisitionFailure) is emitted. -/
theorem claim3_counterexample :
    (newSample (okSample []) initBuffer).errors = [] ∧
    (newSample (okSample []) initBuffer).flow = Except.ok () ∧
    (newSample (okSample []) initBuffer).buf = initBuffer := by
  refine ⟨rfl, rfl, ?_⟩
  rw [newSample_okSample]
  exact stridedCopy_eq_self initBuffer [] (Or.inr (by simp))

/-- Claim C3 (amended): a sample with a zero-length payload is processed
without error and leaves the shared slot unchanged; the fatal
data-acquisition error (`getBufferFailed`) is reported — with the slot likewise
unchanged — exactly when the sample has no retrievable buffer at all. -/
theorem claim3_amended (buf : Buffer) :
    ((newSample (okSample []) buf).flow = Except.ok () ∧
     (newSample (okSample []) buf).errors = [] ∧
     (newSample (okSample []) buf).buf = buf) ∧
    ((newSample (some ⟨none⟩) buf).flow = Except.error FlowErr.error ∧
     (newSample (some ⟨none⟩) buf).errors = [ElemError.getBufferFailed] ∧
     (newSample (some ⟨none⟩) buf).buf = buf) := by
  refine ⟨⟨rfl, rfl, ?_⟩, rfl, rfl, rfl⟩
  rw [newSample_okSample]
  exact stridedCopy_eq_self buf [] (Or.inr (by simp))

/-- Claim C4: a successful callback invocation mutates the frame buffer
exactly once (one write-lock acquisition running the conversion loop), and an
invocation that reports any error performs no mutation and leaves the buffer
untouched. -/
theorem claim4_mutation_count (pulled : Option Sample) (buf : Buffer) :
    ((newSample pulled buf).flow = Except.ok () → (newSample pulled buf).writes = 1) ∧
    ((newSample pulled buf).flow ≠ Except.ok () →
      (newSample pulled buf).writes = 0 ∧ (newSample pulled buf).buf = buf) := by
  match pulled with
  | none =>
    refine ⟨fun h => ?_, fun _ => ⟨rfl, rfl⟩⟩
    simp [newSample] at h
  | some ⟨none⟩ =>
    refine ⟨fun h => ?_, fun _ => ⟨rfl, rfl⟩⟩
    simp [newSample] at h
  | some ⟨some ⟨false, bys⟩⟩ =>
    refine ⟨fun h => ?_, fun _ => ⟨rfl, rfl⟩⟩
    simp [newSample] at h
  | some ⟨some ⟨true, bys⟩⟩ =>
    have hok : newSample (some ⟨some ⟨true, bys⟩⟩) buf
        = ⟨Except.ok (), stridedCopy buf bys, [], 1⟩ := newSample_okSample bys buf
    rw [hok]
    exact ⟨fun _ => rfl, fun h => absurd rfl h⟩

theorem claim4_witness :
    (newSample (okSample [1, 2, 3]) initBuffer).flow = Except.ok () ∧
    (newSample (okSample [1, 2, 3]) initBuffer).writes = 1 :=
  ⟨rfl, (claim4_mutation_count (okSample [1, 2, 3]) initBuffer).1 rfl⟩

/-- Claim C9: for any payload length `L` and any prior buffer contents, the
conversion overwrites exactly the colour bytes of pixels
`0 .. min(width*height, L/3) - 1` and leaves every other byte (the padding
bytes, and all bytes of every pixel at index at least the minimum) at its
previous value; excess source bytes beyond `width*height*3` are ignored. -/
theorem claim9_partial_payload (bytes : List Nat) (buf : Buffer)
    (hb : buf.length = width * height * 4) :
    (∀ i k, k < 3 → i < min (width * height) (bytes.length / 3) →
      (newSample (okSample bytes) buf).buf[4 * i + k]? = bytes[3 * i + k]?) ∧
    (∀ i, (newSample (okSample bytes) buf).buf[4 * i + 3]? = buf[4 * i + 3]?) ∧
    (∀ i k, k < 4 → min (width * height) (bytes.length / 3) ≤ i →
      (newSample (okSample bytes) buf).buf[4 * i + k]? = buf[4 * i + k]?) := by
  obtain ⟨-, -, -, -, hcol, hpad, hrest⟩ := okSample_char bytes buf hb
  exact ⟨hcol, hpad, hrest⟩

theorem claim9_witness :
    initBuffer.length = width * height * 4 ∧
    ((∀ i k, k < 3 → i < min (width * height) ([5, 6, 7, 8].length / 3) →
       (newSample (okSample [5, 6, 7, 8]) initBuffer).buf[4 * i + k]?
          = [5, 6, 7, 8][3 * i + k]?) ∧
     (∀ i, (newSample (okSample [5, 6, 7, 8]) initBuffer).buf[4 * i + 3]?
          = initBuffer[4 * i + 3]?) ∧
     (∀ i k, k < 4 → min (width * height) ([5, 6, 7, 8].length / 3) ≤ i →
       (newSample (okSample [5, 6, 7, 8]) initBuffer).buf[4 * i + k]?
          = initBuffer[4 * i + k]?)) :=
  ⟨by simp [initBuffer, bufLen],
   claim9_partial_payload [5, 6, 7, 8] initBuffer (by simp [initBuffer, bufLen])⟩

theorem pixelBytes_init (i : Nat) (hi : i < numPixels) :
    pixelBytes initBuffer i = [some 0, some 0, some 0, some 0] := by
  have hb : 4 * i + 3 < bufLen := by
    rw [bufLen_eq]; omega
  unfold pixelBytes
  rw [initBuffer, List.getElem?_replicate, List.getElem?_replicate,
    List.getElem?_replicate, List.getElem?_replicate]
  rw [if_pos (by omega), if_pos (by omega), if_pos (by omega), if_pos hb]

/-- Claim C5: under every interleaving of atomic producer writes and consumer
reads, every read observes a buffer of length exactly `width*height*4`, and
within any single pixel's 4 bytes the observed bytes never mix two different
writes: they are either the initial zeros or the three source bytes of one
single successful write together with the untouched padding 0. -/
theorem claim5_no_torn_reads (es : List Event) (o : Buffer)
    (ho : o ∈ observations es) :
    o.length = width * height * 4 ∧
    ∀ i, i < width * height →
      pixelBytes o i = [some 0, some 0, some 0, some 0] ∨
      ∃ b, (∃ p, Event.sample p ∈ es ∧ succPayload p = some b) ∧
        pixelBytes o i = writtenPixel b i := by
  obtain ⟨pre, post, hsplit, rfl⟩ := mem_observationsAux es initBuffer o ho
  constructor
  · exact (goodBuf_foldl pre initBuffer goodBuf_init).1
  · intro i hi
    have hchar := pixelBytes_foldl pre initBuffer none i goodBuf_init hi
      (pixelBytes_init i hi)
    match hlast : lastCoveringFrom none i pre with
    | none =>
      rw [hlast] at hchar
      exact Or.inl hchar
    | some b =>
      rw [hlast] at hchar
      refine Or.inr ⟨b, ?_, hchar⟩
      match lastCoveringFrom_source pre none i b hlast with
      | Or.inl h => cases h
      | Or.inr ⟨p, hp, hsp⟩ =>
        refine ⟨p, ?_, hsp⟩
        rw [← hsplit]
        exact List.mem_append_left post hp

theorem claim5_witness :
    ((newSample (okSample [1, 2, 3]) initBuffer).buf
        ∈ observations [Event.sample (okSample [1, 2, 3]), Event.tick]) ∧
    ((newSample (okSample [1, 2, 3]) initBuffer).buf.length = width * height * 4 ∧
     ∀ i, i < width * height →
       pixelBytes ((newSample (okSample [1, 2, 3]) initBuffer).buf) i
          = [some 0, some 0, some 0, some 0] ∨
       ∃ b, (∃ p, Event.sample p ∈ [Event.sample (okSample [1, 2, 3]), Event.tick]
              ∧ succPayload p = some b) ∧
         pixelBytes ((newSample (okSample [1, 2, 3]) initBuffer).buf) i
            = writtenPixel b i) :=
  ⟨List.mem_singleton_self _,
   claim5_no_torn_reads [Event.sample (okSample [1, 2, 3]), Event.tick] _
     (List.mem_singleton_self _)⟩

/-- Claim C6: if a bus error message is handled while the pipeline is
`Playing`, the pipeline transitions to `Null`, no event whatsoever mutates the
frame buffer afterwards (the last published frame stays in the slot), and the
error — source element path (or "None"), error text, optional debug detail —
is surfaced to the owning collaborator. -/
theorem claim6_pipeline_fault (es rest : List SysEvent) (s : Option String)
    (t : String) (d : Option String)
    (h : (sysRun es).gst = GstState.playing) :
    (sysRunFrom (sysStep (sysRun es) (SysEvent.bus (BusMsg.errorMsg s t d))) rest).gst
        = GstState.null ∧
    (sysRunFrom (sysStep (sysRun es) (SysEvent.bus (BusMsg.errorMsg s t d))) rest).buf
        = (sysRun es).buf ∧
    (sysRunFrom (sysStep (sysRun es) (SysEvent.bus (BusMsg.errorMsg s t d))) rest).surfaced
        = some ⟨s.getD "None", t, d⟩ := by
  have hstep : sysStep (sysRun es) (SysEvent.bus (BusMsg.errorMsg s t d))
      = ⟨GstState.null, (sysRun es).buf, some ⟨s.getD "None", t, d⟩⟩ := by
    simp [sysStep, h]
  rw [hstep, sysRunFrom_null _ rest rfl]
  exact ⟨rfl, rfl, rfl⟩

theorem claim6_witness :
    (sysRun []).gst = GstState.playing ∧
    ((sysRunFrom (sysStep (sysRun [])
        (SysEvent.bus (BusMsg.errorMsg none "fault" none)))
        [SysEvent.sample (okSample [1, 2, 3])]).gst = GstState.null ∧
     (sysRunFrom (sysStep (sysRun [])
        (SysEvent.bus (BusMsg.errorMsg none "fault" none)))
        [SysEvent.sample (okSample [1, 2, 3])]).buf = (sysRun []).buf ∧
     (sysRunFrom (sysStep (sysRun [])
        (SysEvent.bus (BusMsg.errorMsg none "fault" none)))
        [SysEvent.sample (okSample [1, 2, 3])]).surfaced
        = some ⟨Option.getD none "None", "fault", none⟩) :=
  ⟨rfl, claim6_pipeline_fault [] [SysEvent.sample (okSample [1, 2, 3])]
    none "fault" none rfl⟩

/-- Claim C7: the buffer length is invariant — after any sequence of producer
invocations (successful or erroneous) and consumer reads, the shared buffer
holds exactly `width*height*4` bytes. -/
theorem claim7_length_invariant (es : List Event) :
    (runBuf es).length = width * height * 4 :=
  (goodBuf_runBuf es).1

/-- Claim C8: on a tick where the `AppSinkImage` asset is not yet loaded,
`copy_image` leaves the display image's data unchanged (no copy) and merely
prints "Not loaded"; once the asset is available (and the lock is healthy) the
copy resumes, replacing the image data with the slot's bytes. -/
theorem claim8_skip_when_unloaded (lockOk : Bool) (d : Option (List Nat))
    (raw : Buffer) (old : List Nat) :
    ((copy_image none lockOk d).imageData = d ∧
     (copy_image none lockOk d).printedNotLoaded = true) ∧
    (copy_image (some raw) true (some old)).imageData = some raw := by
  refine ⟨⟨?_, ?_⟩, rfl⟩ <;> cases d <;> rfl

/-- Claim C10: in every reachable state of the shared slot, the 4th byte of
every pixel is 0 — it starts at 0 and no producer write or consumer read ever
touches it. -/
theorem claim10_padding_invariant (es : List Event) (i : Nat)
    (hi : i < width * height) :
    (runBuf es)[4 * i + 3]? = some 0 :=
  (goodBuf_runBuf es).2 i hi

theorem claim10_witness :
    0 < width * height ∧
    (runBuf [Event.sample (okSample [9, 9, 9, 9])])[4 * 0 + 3]? = some 0 :=
  ⟨by decide, claim10_padding_invariant [Event.sample (okSample [9, 9, 9, 9])] 0
    (by decide)⟩

end ItsAMeCube
